import Mathlib

/-!
Verification development for the credit-extraction / document-classification /
grade-conversion core of the rpa-hisinone-digstu repository.

Shallow embedding conventions:
* Python floats are modelled by `ℚ` (exact rationals); `round(x, 2)` is modelled
  by exact round-half-even at two decimals (`round2`).
* Python strings are Lean `String`s; Python's `.lower()` is modelled for ASCII
  plus the German letters Ä/Ö/Ü (the only non-ASCII letters relevant here).
* External collaborators (pdf2image rasterization, pytesseract OCR, difflib's
  `SequenceMatcher.ratio`, Python float formatting in f-strings) are inputs /
  opaque function parameters of the embedded functions: the rasterizer result is
  an `Option (List PageData)` (none = exception), the per-page OCR results are
  the `PageData` list, the fuzzy similarity is a parameter
  `ratio : String → String → ℚ`, and float-to-string rendering is a parameter
  `fmtNum : ℚ → String`.
* Python dicts keyed by the requested categories are modelled as functions
  `String → ℚ` (zero outside the touched keys) together with sums taken over
  the distinct members of the category list.
-/

namespace RPA

/-! ## Character and string primitives (src/utils/ocr_engine.py) -/

/-- ASCII whitespace characters recognized by the regex class `\s` and by
Python's `str.strip` / `str.isspace` for the inputs considered here. -/
def isSpaceChar (c : Char) : Bool :=
  c = ' ' || c = '\t' || c = '\n' || c = '\r' || c = '\x0b' || c = '\x0c'

/-- Python `str.lower` restricted to ASCII plus the German capital umlauts. -/
def lowerChar (c : Char) : Char :=
  if c = 'Ä' then 'ä'
  else if c = 'Ö' then 'ö'
  else if c = 'Ü' then 'ü'
  else c.toLower

/-- The fixed umlaut folding map `UMLAUT_MAP` of `normalize_text`
(ocr_engine.py lines 96-101): ä→ae, ö→oe, ü→ue, ß→ss. -/
def foldUmlaut (c : Char) : List Char :=
  if c = 'ä' then ['a', 'e']
  else if c = 'ö' then ['o', 'e']
  else if c = 'ü' then ['u', 'e']
  else if c = 'ß' then ['s', 's']
  else [c]

/-- Python's substring test `needle in hay`. -/
def pyIn (needle : List Char) : List Char → Bool
  | [] => needle.isEmpty
  | c :: t => needle.isPrefixOf (c :: t) || pyIn needle t

/-- Split a character list at maximal whitespace runs, dropping empty pieces;
`cur` is the (reversed) pending word. -/
def splitWsAux : List Char → List Char → List (List Char)
  | [], cur => if cur.isEmpty then [] else [cur.reverse]
  | c :: t, cur =>
    if isSpaceChar c then
      if cur.isEmpty then splitWsAux t [] else cur.reverse :: splitWsAux t []
    else splitWsAux t (c :: cur)

def isLowerAlnum (c : Char) : Bool :=
  ('a' ≤ c && c ≤ 'z') || ('0' ≤ c && c ≤ '9')

/-- `normalize_text` (ocr_engine.py lines 102-107): lowercase, fold umlauts,
replace characters outside `[a-z0-9\s]` by spaces, collapse whitespace runs to
single spaces and strip. The collapse-and-strip step is implemented by
splitting at whitespace runs and rejoining with single spaces. -/
def normalize_text (s : String) : String :=
  let cs := s.data.map lowerChar
  let cs := (cs.map foldUmlaut).flatten
  let cs := cs.map (fun c => if isLowerAlnum c || isSpaceChar c then c else ' ')
  String.mk (List.intercalate [' '] (splitWsAux cs []))

/-- Letters counted by `TRASH_PATTERN` `[A-Za-zÄÖÜäöüß]{4,}`. -/
def isTrashLetter (c : Char) : Bool :=
  ('A' ≤ c && c ≤ 'Z') || ('a' ≤ c && c ≤ 'z') ||
  c = 'Ä' || c = 'Ö' || c = 'Ü' || c = 'ä' || c = 'ö' || c = 'ü' || c = 'ß'

/-- Does the text contain a run of at least four consecutive letters?
(`TRASH_PATTERN.search`). -/
def hasLetterRun4 : List Char → Nat → Bool
  | [], _ => false
  | c :: t, streak =>
    if isTrashLetter c then
      if streak + 1 ≥ 4 then true else hasLetterRun4 t (streak + 1)
    else hasLetterRun4 t 0

/-- `is_trash_line` (ocr_engine.py lines 111-122): blank lines are trash; a
line with a ≥4-letter run is kept; otherwise a line containing a digit is
trash. -/
def is_trash_line (line : String) : Bool :=
  if line.data.all isSpaceChar then true
  else if hasLetterRun4 line.data 0 then false
  else if line.data.any Char.isDigit then true
  else false

/-- Numeric value of a digit list (most significant first). -/
def digitsToNat (l : List Char) : Nat :=
  l.foldl (fun n c => 10 * n + (c.toNat - 48)) 0

/-- Parse a token that matches `NUM_RE` = `^\d+(?:[.,]\d+)?$` after the
`","→"."` replacement done by `extract_ects_from_row`; returns the float value
(exactly, as a rational). -/
def parseNum (s : String) : Option ℚ :=
  let cs := s.data.map (fun c => if c = ',' then '.' else c)
  let intPart := cs.takeWhile Char.isDigit
  let rest := cs.dropWhile Char.isDigit
  if intPart.isEmpty then none
  else
    match rest with
    | [] => some (digitsToNat intPart)
    | '.' :: frac =>
      if frac.isEmpty || !(frac.all Char.isDigit) then none
      else some ((digitsToNat intPart : ℚ) +
                 (digitsToNat frac : ℚ) / (10 : ℚ) ^ frac.length)
    | _ => none

/-! ## Tokens, rows, modules (src/utils/ocr_engine.py) -/

/-- An OCR token; only the fields read by the extraction code are kept
(`text` and the horizontal centroid `xc`). -/
structure Token where
  text : String
  xc : ℚ
deriving DecidableEq

/-- A reconstructed row: the joined text and its tokens. -/
structure Row where
  text : String
  tokens : List Token
deriving DecidableEq

/-- The `Module` namedtuple (ocr_engine.py line 128). -/
structure Module where
  name : String
  category : String
  ects : Option ℚ
deriving DecidableEq

/-- The result of `_process_page_optimized` for one page: reconstructed lines,
the `NOTE_RE` hits (unused by aggregation) and the token rows. -/
structure PageData where
  lines : List String
  notes : List String
  rows : List Row
deriving DecidableEq

/-- `header_keywords` of `detect_ects_column` (ocr_engine.py lines 268-269). -/
def headerKeywords : List String :=
  ["ects", "lp", "credit", "credits", "leistungspunkte", "cp"]

/-- The candidate centroids collected by `detect_ects_column`: for each row,
each token whose lowercased text contains one of the header keywords
contributes its horizontal centroid once (the `break` after the first matching
keyword). -/
def ectsColumnCandidates (rows : List Row) : List ℚ :=
  rows.foldl (fun acc row =>
    acc ++ row.tokens.filterMap (fun tok =>
      let txt := tok.text.data.map lowerChar
      if headerKeywords.any (fun kw => pyIn kw.data txt) then some tok.xc
      else none)) []

/-- Insert into an ascending-sorted list (Python `list.sort()`). -/
def insertAsc (x : ℚ) : List ℚ → List ℚ
  | [] => [x]
  | y :: t => if x ≤ y then x :: y :: t else y :: insertAsc x t

def sortAsc (l : List ℚ) : List ℚ :=
  l.foldl (fun acc x => insertAsc x acc) []

/-- `detect_ects_column` (ocr_engine.py lines 266-290): scan only the first 20
rows for header-keyword tokens; no candidate → no column; otherwise the median
centroid (average of the two middle values on an even count). -/
def detect_ects_column (rows : List Row) : Option ℚ :=
  let candidates := ectsColumnCandidates (rows.take 20)
  if candidates.isEmpty then none
  else
    let sorted := sortAsc candidates
    let mid := sorted.length / 2
    if sorted.length % 2 = 1 then some (sorted.getD mid 0)
    else some ((sorted.getD (mid - 1) 0 + sorted.getD mid 0) / 2)

/-- `extract_ects_from_row` (ocr_engine.py lines 293-313): among the row's
tokens parsing as a number in (0, 40], keep the one with minimal horizontal
distance to `ectsX`, accepted only within `maxDistance`. The fold state is
(best value so far, best distance so far). -/
def ectsRowStep (ectsX maxDistance : ℚ) (acc : Option ℚ × Option ℚ)
    (tok : Token) : Option ℚ × Option ℚ :=
  match parseNum tok.text with
  | none => acc
  | some val =>
    if val ≤ 0 ∨ 40 < val then acc
    else
      let dist := |tok.xc - ectsX|
      match acc.2 with
      | none =>
        if dist ≤ maxDistance then (some val, some dist) else acc
      | some bd =>
        if dist ≤ maxDistance ∧ dist < bd then (some val, some dist) else acc

def extract_ects_from_row (row : Row) (ectsX : ℚ) (maxDistance : ℚ) : Option ℚ :=
  (row.tokens.foldl (ectsRowStep ectsX maxDistance) (none, none)).1

/-- Stable insertion (descending by normalized-name length), modelling Python's
stable `sort(key=..., reverse=True)`: an element passes over exactly the
already-placed elements with key ≥ its own. -/
def insertLenDesc (p : Module × String) :
    List (Module × String) → List (Module × String)
  | [] => [p]
  | q :: t =>
    if p.2.length ≤ q.2.length then q :: insertLenDesc p t
    else p :: q :: t

def sortLenDesc (l : List (Module × String)) : List (Module × String) :=
  l.foldl (fun acc p => insertLenDesc p acc) []

/-- `_resolve_conflicts_keep_specific` (ocr_engine.py lines 316-332): sort the
candidates by normalized-name length descending (stably) and keep a candidate
unless its normalized name is a strict substring of an already-kept one's. -/
def _resolve_conflicts_keep_specific (mods : List Module) : List Module :=
  if mods.length ≤ 1 then mods
  else
    let temp := mods.map (fun m => (m, normalize_text m.name))
    let sorted := sortLenDesc temp
    (sorted.foldl (fun (acc : List Module × List String) p =>
      if acc.2.any (fun kn => p.2 ≠ kn && pyIn p.2.data kn.data) then acc
      else (acc.1 ++ [p.1], acc.2 ++ [p.2])) ([], [])).1

/-- `FUZZY_THRESHOLD = 0.80` (ocr_engine.py line 129). -/
def FUZZY_THRESHOLD : ℚ := 4 / 5

/-- The strict hits of `match_modules_in_row`: modules whose nonempty
normalized name is a substring of the normalized row text, in input order. -/
def strictHitsOf (row_text : String) (module_map : List Module) : List Module :=
  let text_norm := normalize_text row_text
  module_map.filter (fun mod =>
    let mod_norm := normalize_text mod.name
    !(mod_norm == "") && pyIn mod_norm.data text_norm.data)

/-- The fuzzy hits of `match_modules_in_row`: modules with a nonempty
normalized name that is not a substring of the row text but whose
`SequenceMatcher` ratio (the opaque parameter `ratio`) reaches the 0.80
threshold, when fuzzy matching is allowed. -/
def fuzzyHitsOf (ratio : String → String → ℚ) (row_text : String)
    (module_map : List Module) (allow_fuzzy : Bool) : List Module :=
  let text_norm := normalize_text row_text
  module_map.filter (fun mod =>
    let mod_norm := normalize_text mod.name
    !(mod_norm == "") && !(pyIn mod_norm.data text_norm.data) &&
    allow_fuzzy && decide (FUZZY_THRESHOLD ≤ ratio mod_norm text_norm))

/-- `match_modules_in_row` (ocr_engine.py lines 335-360): empty normalized row
text → no matches; otherwise strict hits, if any, fully suppress fuzzy hits;
the winner set goes through conflict resolution. -/
def match_modules_in_row (ratio : String → String → ℚ) (row_text : String)
    (module_map : List Module) (allow_fuzzy : Bool) : List Module :=
  if normalize_text row_text = "" then []
  else
    let strict_hits := strictHitsOf row_text module_map
    let fuzzy_hits := fuzzyHitsOf ratio row_text module_map allow_fuzzy
    if !strict_hits.isEmpty then _resolve_conflicts_keep_specific strict_hits
    else if !fuzzy_hits.isEmpty then _resolve_conflicts_keep_specific fuzzy_hits
    else []

/-- Python `str.strip` (ASCII whitespace). -/
def pyStrip (s : String) : String :=
  String.mk ((s.data.dropWhile isSpaceChar).reverse.dropWhile isSpaceChar
    |>.reverse)

/-- `_build_module_list_from_mapping` (ocr_engine.py lines 363-369): each
(name, category) item of the mapping dict becomes a `Module` with stripped
lowercased name, stripped category, and `ects = None`. -/
def _build_module_list_from_mapping (module_map_dict : List (String × String)) :
    List Module :=
  module_map_dict.map (fun p =>
    { name := pyStrip ((String.mk (p.1.data.map lowerChar)))
      category := pyStrip p.2
      ects := none })

/-! ## Aggregation and result selection of `extract_ects_ocr`
(src/utils/ocr_engine.py lines 372-466) -/

/-- Deduplication key: (module name, category, credit value). -/
abbrev MatchKey := String × String × ℚ

/-- One evidence entry before formatting: (name, category, value, row text). -/
abbrev MatchEntry := String × String × ℚ × String

def keyOf (e : MatchEntry) : MatchKey := (e.1, e.2.1, e.2.2.1)

/-- The mutable aggregation state of `extract_ects_ocr`'s page loop:
the two dedup sets, the two evidence lists and the two per-category
accumulator dicts (modelled as functions, zero outside touched keys). -/
structure ExtractState where
  line_seen : List MatchKey
  col_seen : List MatchKey
  line_matches : List MatchEntry
  col_matches : List MatchEntry
  sums_line : String → ℚ
  sums_col : String → ℚ

def initState : ExtractState :=
  ⟨[], [], [], [], fun _ => 0, fun _ => 0⟩

/-- Line strategy, inner loop body over the matched modules (ocr_engine.py
lines 419-429): category filter, dedup key check, accumulate and record. -/
def lineStep (categories : List String) (ln : String)
    (st : ExtractState) (m : Module) : ExtractState :=
  if m.category ∈ categories then
    let ectsVal := m.ects.getD 0
    let key : MatchKey := (m.name, m.category, ectsVal)
    if key ∈ st.line_seen then st
    else
      { st with
        line_seen := key :: st.line_seen
        sums_line := fun k =>
          if k = m.category then st.sums_line k + ectsVal else st.sums_line k
        line_matches := st.line_matches ++ [(m.name, m.category, ectsVal, ln)] }
  else st

/-- Line strategy for one reconstructed line (ocr_engine.py lines 415-429):
trash lines are skipped, otherwise every matched module is processed. -/
def processLine (ratio : String → String → ℚ) (modules : List Module)
    (categories : List String) (st : ExtractState) (ln : String) : ExtractState :=
  if is_trash_line ln then st
  else (match_modules_in_row ratio ln modules true).foldl
    (lineStep categories ln) st

/-- Column strategy, inner loop body over the matched modules (ocr_engine.py
lines 441-448). -/
def colStep (categories : List String) (rowText : String) (v : ℚ)
    (st : ExtractState) (m : Module) : ExtractState :=
  if m.category ∈ categories then
    let key : MatchKey := (m.name, m.category, v)
    if key ∈ st.col_seen then st
    else
      { st with
        col_seen := key :: st.col_seen
        sums_col := fun k =>
          if k = m.category then st.sums_col k + v else st.sums_col k
        col_matches := st.col_matches ++ [(m.name, m.category, v, rowText)] }
  else st

/-- Column strategy for one row (ocr_engine.py lines 433-448): rows with no
module match or no number near the column are skipped. -/
def processRowCol (ratio : String → String → ℚ) (modules : List Module)
    (categories : List String) (ectsX : ℚ) (st : ExtractState) (row : Row) :
    ExtractState :=
  let found := match_modules_in_row ratio row.text modules true
  if found.isEmpty then st
  else
    match extract_ects_from_row row ectsX 40 with
    | none => st
    | some v => found.foldl (colStep categories row.text v) st

/-- Aggregation for one page (ocr_engine.py lines 409-448): detect the page's
credit column, run the line strategy over the lines, then — only if a column
was detected — the column strategy over the rows. -/
def processPage (ratio : String → String → ℚ) (modules : List Module)
    (categories : List String) (st : ExtractState) (page : PageData) :
    ExtractState :=
  let ectsX := detect_ects_column page.rows
  let st1 := page.lines.foldl (processLine ratio modules categories) st
  match ectsX with
  | none => st1
  | some x => page.rows.foldl (processRowCol ratio modules categories x) st1

def aggregatePages (ratio : String → String → ℚ) (modules : List Module)
    (categories : List String) (pages : List PageData) : ExtractState :=
  pages.foldl (processPage ratio modules categories) initState

/-- `sum(dict.values())` for a dict whose keys are the distinct members of
`cats`, modelled over the accumulator function. -/
def dictSum (cats : List String) (f : String → ℚ) : ℚ :=
  (cats.dedup.map f).sum

/-- Round-half-even to an integer (Python's `round` tie-breaking). -/
def rhe (q : ℚ) : ℤ :=
  if q - ⌊q⌋ < 1 / 2 then ⌊q⌋
  else if 1 / 2 < q - ⌊q⌋ then ⌊q⌋ + 1
  else if ⌊q⌋ % 2 = 0 then ⌊q⌋ else ⌊q⌋ + 1

/-- Python `round(x, 2)` modelled exactly on rationals. -/
def round2 (q : ℚ) : ℚ := (rhe (100 * q) : ℚ) / 100

/-- The f-string evidence formatting `f"{n} -> {c}:{e} | {txt}"` with the
float rendering left as the opaque parameter `fmtNum`. -/
def formatMatch (fmtNum : ℚ → String) (e : MatchEntry) : String :=
  e.1 ++ " -> " ++ e.2.1 ++ ":" ++ fmtNum e.2.2.1 ++ " | " ++ e.2.2.2

/-- The full result type: (per-category sums, matched evidence, unrecognized
evidence, method tag). -/
abbrev ExtractResult := (String → ℚ) × List String × List String × String

/-- `extract_ects_ocr` (ocr_engine.py lines 372-466). `pdfExists` models
`os.path.exists(pdf_path)`; `raster` models `convert_from_path` followed by
the per-page OCR (`none` = rasterization raised). Quick-fail and
rasterization-failure branches return all-zero sums with a sentinel tag;
otherwise the pages are aggregated and the column result is preferred when its
total is positive, the final sums being rounded to 2 decimals. The function is
total: no branch raises. -/
def extract_ects_ocr (ratio : String → String → ℚ) (fmtNum : ℚ → String)
    (pdfExists : Bool) (raster : Option (List PageData))
    (module_map_dict : List (String × String)) (categories : List String) :
    ExtractResult :=
  let modules := _build_module_list_from_mapping module_map_dict
  if modules.isEmpty || !pdfExists then
    (fun _ => 0, [], [], "ocr_skipped")
  else
    match raster with
    | none => (fun _ => 0, [], [], "rasterization_failed")
    | some pages =>
      let st := aggregatePages ratio modules categories pages
      let totalCol := dictSum categories st.sums_col
      if 0 < totalCol then
        (fun k => round2 (st.sums_col k),
         st.col_matches.map (formatMatch fmtNum), [], "ocr_optimized_column")
      else
        (fun k => round2 (st.sums_line k),
         st.line_matches.map (formatMatch fmtNum), [], "ocr_optimized_line")

/-! ## Document classifier (src/utils/document_classifier.py)

`document_classifier.py` defines `TRANSCRIPT_RE` twice: first (line 23) from
the 27-entry `TRANSCRIPT_KEYWORDS` list, then again (line 115) as
`\b(?:transcript|ects|credits|cp)\b`. Python resolves the global at call time,
so `score_transcript` runs with the second definition; the keyword-list regex
is dead. The embedding below follows the runtime behaviour. -/

/-- The strong transcript keywords `TRANSCRIPT_KEYWORDS` (lines 12-21),
compiled into the first, shadowed `TRANSCRIPT_RE`. -/
def TRANSCRIPT_KEYWORDS : List String :=
  ["transcript of records", "transcript of academic record", "grade report",
   "leistungsübersicht", "notenübersicht", "notenspiegel", "leistungsnachweis",
   "official transcript", "academic transcript", "student transcript",
   "unofficial transcript", "university transcript", "course transcript",
   "academic record", "record of study", "record of academic work",
   "course history", "study history", "study record", "marksheet",
   "mark sheet", "marks sheet", "statement of marks", "statement of results",
   "grade history", "performance report", "performance transcript"]

/-- Case-insensitive substring search for any of the listed keywords,
modelling `re.search` over an alternation of escaped literals. -/
def searchAnyKeyword (kws : List String) (text : String) : Bool :=
  let lowered := text.data.map lowerChar
  kws.any (fun kw => pyIn kw.data lowered)

/-- Word characters for the regex `\b` boundary (ASCII alphanumerics and
underscore, plus the German letters that can flank our inputs). -/
def isWordChar (c : Char) : Bool :=
  c.isAlphanum || c = '_' ||
  c = 'ä' || c = 'ö' || c = 'ü' || c = 'ß' || c = 'Ä' || c = 'Ö' || c = 'Ü'

/-- The alternatives of the runtime `TRANSCRIPT_RE`
`\b(?:transcript|ects|credits|cp)\b` (line 115-118). -/
def transcriptReWords : List (List Char) :=
  ["transcript", "ects", "credits", "cp"].map String.data

/-- Does one of `words` occur at some position with `\b` on both sides?
`prev` is the character before the current position. -/
def findWordAux (words : List (List Char)) : List Char → Option Char → Bool
  | [], _ => false
  | c :: t, prev =>
    ((match prev with | none => true | some p => !isWordChar p) &&
     words.any (fun w =>
       w.isPrefixOf (c :: t) &&
       (match ((c :: t).drop w.length).head? with
        | none => true
        | some nxt => !isWordChar nxt)))
    || findWordAux words t (some c)

/-- `re.search` of the runtime `TRANSCRIPT_RE` (case-insensitive). -/
def searchTranscriptRe (text : String) : Bool :=
  findWordAux transcriptReWords (text.data.map lowerChar) none

/-- `ECTS_KEYWORDS` (line 22); note the trailing space in `"cp "`. -/
def ECTS_KEYWORDS : List String :=
  ["ects", "leistungspunkte", "credits", "credit points", "cp "]

/-- The alternatives of `SEMESTER_RE`
`(wise|sose|wintersemester|sommersemester|ws ?20|ss ?20)` in regex order, the
optional-space alternatives expanded greedily (space variant first). -/
def semesterAlts : List (List Char) :=
  ["wise", "sose", "wintersemester", "sommersemester",
   "ws 20", "ws20", "ss 20", "ss20"].map String.data

/-- Length of the first alternative matching at this position. -/
def firstMatchLen (alts : List (List Char)) (cs : List Char) : Option Nat :=
  match alts with
  | [] => none
  | a :: rest => if a.isPrefixOf cs then some a.length else firstMatchLen rest cs

/-- Number of non-overlapping, leftmost-first matches (`re.finditer`): on a
match the scan resumes after it, otherwise it advances one character. -/
def countMatches (alts : List (List Char)) : List Char → Nat
  | [] => 0
  | c :: t =>
    match firstMatchLen alts (c :: t) with
    | some len => 1 + countMatches alts (t.drop (len - 1))
    | none => countMatches alts t
termination_by l => l.length
decreasing_by
  · simp only [List.length_drop, List.length_cons]; omega
  · simp [List.length_cons]

/-- Split at a separator character, keeping empty pieces. -/
def splitOnChar (sep : Char) (cs : List Char) : List (List Char) :=
  match cs with
  | [] => [[]]
  | c :: t =>
    let rest := splitOnChar sep t
    if c = sep then [] :: rest
    else match rest with
      | [] => [[c]]
      | h :: r => (c :: h) :: r

/-- Matches of `LINE_WITH_DIGIT_RE` = `^.*\d.*$` with `re.MULTILINE`: one
match per line that contains a digit. -/
def digitLineCount (text : String) : Nat :=
  ((splitOnChar '\n' text.data).filter (fun ln => ln.any Char.isDigit)).length

/-- `score_transcript` (document_classifier.py lines 39-51) with the regexes
it actually sees at call time: +4 for a runtime-`TRANSCRIPT_RE` hit (the
shadowed word regex, NOT the keyword list), +3 for an `ECTS_RE` hit, +2 for at
least two `SEMESTER_RE` matches, +1 for more than twenty digit-carrying
lines. -/
def score_transcript (text : String) : Nat :=
  (if searchTranscriptRe text then 4 else 0)
  + (if searchAnyKeyword ECTS_KEYWORDS text then 3 else 0)
  + (if 2 ≤ countMatches semesterAlts (text.data.map lowerChar) then 2 else 0)
  + (if 20 < digitLineCount text then 1 else 0)

/-- `score_transcript` as the spec and the dead keyword list intend it: the +4
uses the first `TRANSCRIPT_RE`, compiled from `TRANSCRIPT_KEYWORDS`.
Modelled from the spec: this is the claimed behaviour, for comparison with the
runtime `score_transcript` above. -/
def score_transcript_claimed (text : String) : Nat :=
  (if searchAnyKeyword TRANSCRIPT_KEYWORDS text then 4 else 0)
  + (if searchAnyKeyword ECTS_KEYWORDS text then 3 else 0)
  + (if 2 ≤ countMatches semesterAlts (text.data.map lowerChar) then 2 else 0)
  + (if 20 < digitLineCount text then 1 else 0)

/-! ## Grade scale registry and converter (src/utils/grading_systems.py)

Grades are modelled as exact rationals; `1e-6` is the rational 1/1000000 and
`round(x, 2)` is exact round-half-even at two decimals. `math.isnan/isinf`
are vacuous on ℚ (the checked conditions can never hold), so those guards
disappear from the embedding. -/

structure GradeScale where
  direction : String
  best_grade : ℚ
  pass_grade : ℚ
deriving DecidableEq

/-- `_COUNTRY_ALIASES` (grading_systems.py lines 15-81) as a lookup list. -/
def COUNTRY_ALIASES : List (String × String) :=
  [("germany", "germany"), ("bundesrepublik deutschland", "germany"),
   ("deutschland", "germany"),
   ("austria", "austria"), ("österreich", "austria"), ("oesterreich", "austria"),
   ("switzerland", "switzerland"), ("schweiz", "switzerland"),
   ("suisse", "switzerland"),
   ("united kingdom", "united kingdom"), ("uk", "united kingdom"),
   ("vereinigtes königreich", "united kingdom"),
   ("vereinigtes koenigreich", "united kingdom"), ("england", "united kingdom"),
   ("scotland", "united kingdom"), ("wales", "united kingdom"),
   ("northern ireland", "united kingdom"),
   ("united states", "united states"),
   ("united states of america", "united states"), ("usa", "united states"),
   ("u.s.a.", "united states"), ("canada", "canada"),
   ("turkey", "turkey"), ("türkei", "turkey"), ("tuerkei", "turkey"),
   ("india", "india"),
   ("italy", "italy"), ("italien", "italy"),
   ("france", "france"), ("frankreich", "france"),
   ("spain", "spain"), ("spanien", "spain"),
   ("netherlands", "netherlands"), ("niederlande", "netherlands"),
   ("the netherlands", "netherlands"),
   ("belgium", "belgium"), ("belgien", "belgium"),
   ("china", "china"), ("pr china", "china"),
   ("people's republic of china", "china"),
   ("peoples republic of china", "china")]

/-- `normalize_country_name` (lines 84-88): empty → None; otherwise strip,
lowercase and look up the alias table. -/
def normalize_country_name (raw : String) : Option String :=
  if raw = "" then none
  else
    let key := pyStrip (String.mk (raw.data.map lowerChar))
    (COUNTRY_ALIASES.find? (fun p => p.1 = key)).map Prod.snd

/-- `_COUNTRY_SCALES` (lines 91-126). -/
def COUNTRY_SCALES : List (String × GradeScale) :=
  [("germany", ⟨"descending", 1, 4⟩),
   ("austria", ⟨"descending", 1, 4⟩),
   ("switzerland", ⟨"ascending", 6, 4⟩),
   ("united kingdom", ⟨"ascending", 100, 40⟩),
   ("united states", ⟨"ascending", 4, 2⟩),
   ("canada", ⟨"ascending", 4, 2⟩),
   ("turkey", ⟨"ascending", 4, 2⟩),
   ("india", ⟨"ascending", 100, 40⟩),
   ("italy", ⟨"ascending", 30, 18⟩),
   ("france", ⟨"ascending", 20, 10⟩),
   ("spain", ⟨"ascending", 10, 5⟩),
   ("netherlands", ⟨"ascending", 10, 11/2⟩),
   ("belgium", ⟨"ascending", 20, 10⟩),
   ("china", ⟨"ascending", 100, 60⟩),
   ("poland", ⟨"ascending", 5, 3⟩),
   ("portugal", ⟨"ascending", 20, 10⟩),
   ("brazil", ⟨"ascending", 10, 5⟩),
   ("russia", ⟨"ascending", 5, 3⟩)]

/-- `get_country_scale` (lines 129-136). -/
def get_country_scale (country_name : String) : Option GradeScale :=
  if country_name = "" then none
  else
    match normalize_country_name country_name with
    | none => none
    | some norm => (COUNTRY_SCALES.find? (fun p => p.1 = norm)).map Prod.snd

/-- The raw linear map of `convert_to_german` for a given scale (the
direction-dependent formula on lines 160 and 166). -/
def rawGerman (scale : GradeScale) (g : ℚ) : ℚ :=
  if scale.direction = "descending" then
    1 + 3 * (g - scale.best_grade) / (scale.pass_grade - scale.best_grade)
  else
    1 + 3 * (scale.best_grade - g) / (scale.best_grade - scale.pass_grade)

/-- The direction-dependent denominator checked against `1e-6`. -/
def denomOf (scale : GradeScale) : ℚ :=
  if scale.direction = "descending" then scale.pass_grade - scale.best_grade
  else scale.best_grade - scale.pass_grade

/-- `convert_to_german` (grading_systems.py lines 139-176): unknown country →
None; foreign grade more than 5 scale-units outside [min(best,pass),
max(best,pass)] → None; near-zero denominator → None; raw linear value
outside [1 - 1e-6, 4 + 1e-6] → None (the clamp on line 175 only absorbs the
1e-6 slack); otherwise the clamped value rounded to 2 decimals. -/
def convert_to_german (country_name : String) (foreign_grade : ℚ) : Option ℚ :=
  match get_country_scale country_name with
  | none => none
  | some scale =>
    let g := foreign_grade
    let low := min scale.best_grade scale.pass_grade - 5
    let high := max scale.best_grade scale.pass_grade + 5
    if g < low ∨ high < g then none
    else if |denomOf scale| < 1 / 1000000 then none
    else
      let raw := rawGerman scale g
      if raw < 1 - 1 / 1000000 ∨ 4 + 1 / 1000000 < raw then none
      else some (round2 (max 1 (min 4 raw)))

/-- `verify_grade` (grading_systems.py lines 179-201); the claimed grade is an
`Option` to model the `is None` check, and the default tolerance 0.2 is passed
explicitly by callers. -/
def verify_grade (country_name : String) (foreign_grade : ℚ)
    (claimed_german_grade : Option ℚ) (tolerance : ℚ) :
    Option Bool × Option ℚ × String :=
  match claimed_german_grade with
  | none => (none, none, "NoClaimedGrade")
  | some claimed =>
    match convert_to_german country_name foreign_grade with
    | none => (none, none, "NoScaleOrInvalidForeign")
    | some conv0 =>
      let converted := max 1 (min 4 conv0)
      if |converted - claimed| ≤ tolerance then (some true, some converted, "OK")
      else (some false, some converted, "BavarianMismatch")

/-! ## Helper lemmas -/

/-- A foldl preserves an invariant if every step on a list element does. -/
theorem foldl_inv_mem {α σ : Type _} (l : List α) (Inv : σ → Prop)
    (f : σ → α → σ) (step : ∀ s a, a ∈ l → Inv s → Inv (f s a)) :
    ∀ init, Inv init → Inv (l.foldl f init) := by
  induction l with
  | nil => intro init h; simpa using h
  | cons a t ih =>
    intro init h
    simp only [List.foldl_cons]
    exact ih (fun s b hb hs => step s b (List.mem_cons_of_mem a hb) hs)
      (f init a) (step init a (List.mem_cons_self a t) h)

theorem rhe_cases (q : ℚ) : rhe q = ⌊q⌋ ∨ rhe q = ⌊q⌋ + 1 := by
  unfold rhe
  split_ifs <;> simp

theorem le_rhe {q : ℚ} {n : ℤ} (h : (n : ℚ) ≤ q) : n ≤ rhe q := by
  have h1 : n ≤ ⌊q⌋ := Int.le_floor.mpr h
  rcases rhe_cases q with h2 | h2 <;> omega

theorem rhe_le {q : ℚ} {n : ℤ} (h : q ≤ (n : ℚ)) : rhe q ≤ n := by
  have hf : ⌊q⌋ ≤ n := by
    have := Int.floor_le_floor h
    simpa using this
  have hfl : (⌊q⌋ : ℚ) ≤ q := Int.floor_le q
  unfold rhe
  split_ifs with h1 h2 h3
  · exact hf
  · have : (⌊q⌋ : ℚ) < (n : ℚ) := by linarith
    have : ⌊q⌋ < n := by exact_mod_cast this
    omega
  · exact hf
  · have : (⌊q⌋ : ℚ) < (n : ℚ) := by linarith
    have : ⌊q⌋ < n := by exact_mod_cast this
    omega

theorem round2_bounds (a b : ℤ) {q : ℚ} (ha : (a : ℚ) ≤ q) (hb : q ≤ (b : ℚ)) :
    (a : ℚ) ≤ round2 q ∧ round2 q ≤ (b : ℚ) := by
  have h1 : (100 * a : ℤ) ≤ rhe (100 * q) := by
    apply le_rhe; push_cast; linarith
  have h2 : rhe (100 * q) ≤ (100 * b : ℤ) := by
    apply rhe_le; push_cast; linarith
  have h1' : ((100 * a : ℤ) : ℚ) ≤ (rhe (100 * q) : ℚ) := by exact_mod_cast h1
  have h2' : ((rhe (100 * q) : ℤ) : ℚ) ≤ ((100 * b : ℤ) : ℚ) := by exact_mod_cast h2
  unfold round2
  constructor
  · rw [le_div_iff₀ (by norm_num : (0:ℚ) < 100)]
    push_cast at h1' ⊢
    linarith
  · rw [div_le_iff₀ (by norm_num : (0:ℚ) < 100)]
    push_cast at h2' ⊢
    linarith

/-- Every successful conversion lands in the German band [1, 4]. -/
theorem convert_range {country : String} {g v : ℚ}
    (h : convert_to_german country g = some v) : 1 ≤ v ∧ v ≤ 4 := by
  unfold convert_to_german at h
  rcases hs : get_country_scale country with _ | scale
  · rw [hs] at h; exact absurd h (by simp)
  · rw [hs] at h
    simp only at h
    split_ifs at h with h1 h2 h3
    obtain ⟨rfl⟩ : round2 (max 1 (min 4 (rawGerman scale g))) = v := by
      exact Option.some.inj h
    set x := max 1 (min 4 (rawGerman scale g)) with hx
    have hx1 : (1 : ℚ) ≤ x := le_max_left _ _
    have hx4 : x ≤ (4 : ℚ) := max_le (by norm_num) (min_le_left _ _)
    have := round2_bounds 1 4 (by exact_mod_cast hx1) (by exact_mod_cast hx4)
    constructor
    · exact_mod_cast this.1
    · exact_mod_cast this.2

theorem ectsRowStep_pos {ectsX maxD : ℚ} {acc : Option ℚ × Option ℚ}
    {tok : Token} (hs : ∀ w, acc.1 = some w → 0 < w ∧ w ≤ 40) :
    ∀ w, (ectsRowStep ectsX maxD acc tok).1 = some w → 0 < w ∧ w ≤ 40 := by
  intro w hw
  unfold ectsRowStep at hw
  rcases hp : parseNum tok.text with _ | val <;> rw [hp] at hw
  · exact hs w hw
  · rcases hacc : acc.2 with _ | bd <;> rw [hacc] at hw <;> dsimp only at hw <;>
      split_ifs at hw with h1 h2 <;> try exact hs w hw
    all_goals
      have hv : val = w := Option.some.inj hw
    all_goals push_neg at h1
    all_goals exact hv ▸ ⟨h1.1, h1.2⟩

/-- A value extracted near the credit column is in (0, 40]. -/
theorem extract_ects_from_row_pos {row : Row} {ectsX maxD v : ℚ}
    (h : extract_ects_from_row row ectsX maxD = some v) : 0 < v ∧ v ≤ 40 := by
  unfold extract_ects_from_row at h
  have := foldl_inv_mem row.tokens
    (fun (acc : Option ℚ × Option ℚ) => ∀ w, acc.1 = some w → 0 < w ∧ w ≤ 40)
    (ectsRowStep ectsX maxD)
    (fun _ _ _ hs => ectsRowStep_pos hs)
    (none, none) (by intro w hw; exact absurd hw (by simp))
  exact this v h

theorem insertLenDesc_mem {q p : Module × String} :
    ∀ {l : List (Module × String)}, q ∈ insertLenDesc p l → q = p ∨ q ∈ l := by
  intro l
  induction l with
  | nil => intro h; simpa [insertLenDesc] using h
  | cons r t ih =>
    intro h
    unfold insertLenDesc at h
    split_ifs at h with hle
    · rcases List.mem_cons.mp h with h | h
      · exact Or.inr (List.mem_cons.mpr (Or.inl h))
      · rcases ih h with h | h
        · exact Or.inl h
        · exact Or.inr (List.mem_cons.mpr (Or.inr h))
    · rcases List.mem_cons.mp h with h | h
      · exact Or.inl h
      · exact Or.inr h

theorem sortLenDesc_mem {q : Module × String} {l : List (Module × String)}
    (h : q ∈ sortLenDesc l) : q ∈ l := by
  unfold sortLenDesc at h
  have aux : ∀ (l' : List (Module × String)) (acc : List (Module × String)),
      q ∈ l'.foldl (fun a p => insertLenDesc p a) acc → q ∈ acc ∨ q ∈ l' := by
    intro l'
    induction l' with
    | nil => intro acc h; exact Or.inl (by simpa using h)
    | cons p t ih =>
      intro acc h
      rcases ih (insertLenDesc p acc) (by simpa using h) with h | h
      · rcases insertLenDesc_mem h with h | h
        · exact Or.inr (h ▸ List.mem_cons_self p t)
        · exact Or.inl h
      · exact Or.inr (List.mem_cons_of_mem p h)
  rcases aux l [] h with h | h
  · exact absurd h (List.not_mem_nil q)
  · exact h

theorem resolve_subset {m : Module} {mods : List Module}
    (h : m ∈ _resolve_conflicts_keep_specific mods) : m ∈ mods := by
  unfold _resolve_conflicts_keep_specific at h
  split_ifs at h with hlen
  · exact h
  · have := foldl_inv_mem (sortLenDesc (mods.map fun m => (m, normalize_text m.name)))
      (fun (acc : List Module × List String) => ∀ x ∈ acc.1, x ∈ mods)
      (fun acc p =>
        if acc.2.any (fun kn => p.2 ≠ kn && pyIn p.2.data kn.data) then acc
        else (acc.1 ++ [p.1], acc.2 ++ [p.2]))
      (by
        intro acc p hp hinv
        have hpmem : p ∈ mods.map fun m => (m, normalize_text m.name) :=
          sortLenDesc_mem hp
        obtain ⟨m', hm', hm'eq⟩ := List.mem_map.mp hpmem
        dsimp only
        split_ifs with hc
        · exact hinv
        · intro x hx
          rcases List.mem_append.mp hx with hx | hx
          · exact hinv x hx
          · have : x = p.1 := by simpa using hx
            rw [this, ← hm'eq]
            exact hm')
      ([], []) (by intro x hx; exact absurd hx (List.not_mem_nil x))
    exact this m h

theorem strictHitsOf_subset {row_text : String} {mods : List Module} {m : Module}
    (h : m ∈ strictHitsOf row_text mods) : m ∈ mods := by
  unfold strictHitsOf at h
  exact (List.mem_filter.mp h).1

theorem fuzzyHitsOf_subset {ratio : String → String → ℚ} {row_text : String}
    {mods : List Module} {allow_fuzzy : Bool} {m : Module}
    (h : m ∈ fuzzyHitsOf ratio row_text mods allow_fuzzy) : m ∈ mods := by
  unfold fuzzyHitsOf at h
  exact (List.mem_filter.mp h).1

theorem match_subset {ratio : String → String → ℚ} {row_text : String}
    {mods : List Module} {allow_fuzzy : Bool} {m : Module}
    (h : m ∈ match_modules_in_row ratio row_text mods allow_fuzzy) : m ∈ mods := by
  unfold match_modules_in_row at h
  dsimp only at h
  split_ifs at h with h0 h1 h2
  · exact absurd h (List.not_mem_nil m)
  · exact strictHitsOf_subset (resolve_subset h)
  · exact fuzzyHitsOf_subset (resolve_subset h)
  · exact absurd h (List.not_mem_nil m)

/-- The run invariant of `extract_ects_ocr`'s aggregation state: accumulators
are non-negative, every recorded match has a requested category, every
recorded match key is in the corresponding seen-set, and the recorded keys are
pairwise distinct within each strategy. -/
def StInv (categories : List String) (st : ExtractState) : Prop :=
  (∀ k, 0 ≤ st.sums_line k) ∧
  (∀ k, 0 ≤ st.sums_col k) ∧
  (∀ e ∈ st.line_matches, e.2.1 ∈ categories) ∧
  (∀ e ∈ st.col_matches, e.2.1 ∈ categories) ∧
  (∀ e ∈ st.line_matches, keyOf e ∈ st.line_seen) ∧
  (∀ e ∈ st.col_matches, keyOf e ∈ st.col_seen) ∧
  (st.line_matches.map keyOf).Nodup ∧
  (st.col_matches.map keyOf).Nodup ∧
  (∀ k, k ∉ categories → st.sums_line k = 0) ∧
  (∀ k, k ∉ categories → st.sums_col k = 0)

theorem initState_inv (categories : List String) : StInv categories initState := by
  refine ⟨fun k => le_refl 0, fun k => le_refl 0, ?_, ?_, ?_, ?_, ?_, ?_,
    fun k _ => rfl, fun k _ => rfl⟩ <;> simp [initState]

theorem lineStep_inv {categories : List String} {ln : String} {st : ExtractState}
    {m : Module} (hm : 0 ≤ m.ects.getD 0) (h : StInv categories st) :
    StInv categories (lineStep categories ln st m) := by
  obtain ⟨h1, h2, h3, h4, h5, h6, h7, h8, h9, h10⟩ := h
  unfold lineStep
  dsimp only
  split_ifs with hcat hkey
  · exact ⟨h1, h2, h3, h4, h5, h6, h7, h8, h9, h10⟩
  · refine ⟨?_, h2, ?_, h4, ?_, h6, ?_, h8, ?_, h10⟩
    · intro k
      dsimp only
      split_ifs with hk
      · exact add_nonneg (h1 k) hm
      · exact h1 k
    · intro e he
      rcases List.mem_append.mp he with he | he
      · exact h3 e he
      · have : e = (m.name, m.category, m.ects.getD 0, ln) := by simpa using he
        rw [this]; exact hcat
    · intro e he
      rcases List.mem_append.mp he with he | he
      · exact List.mem_cons_of_mem _ (h5 e he)
      · have : e = (m.name, m.category, m.ects.getD 0, ln) := by simpa using he
        rw [this]
        exact List.mem_cons_self _ _
    · rw [List.map_append]
      simp only [List.map_cons, List.map_nil]
      rw [List.nodup_append]
      refine ⟨h7, List.nodup_singleton _, ?_⟩
      intro k hk hk'
      have : k = (m.name, m.category, m.ects.getD 0) := by
        simpa [keyOf] using hk'
      obtain ⟨e, he, hke⟩ := List.mem_map.mp hk
      exact hkey (this ▸ hke ▸ h5 e he)
    · intro k hk
      dsimp only
      rw [if_neg (fun hkm => hk (by rw [hkm]; exact hcat))]
      exact h9 k hk
  · exact ⟨h1, h2, h3, h4, h5, h6, h7, h8, h9, h10⟩

theorem colStep_inv {categories : List String} {rowText : String} {v : ℚ}
    {st : ExtractState} {m : Module} (hv : 0 ≤ v) (h : StInv categories st) :
    StInv categories (colStep categories rowText v st m) := by
  obtain ⟨h1, h2, h3, h4, h5, h6, h7, h8, h9, h10⟩ := h
  unfold colStep
  dsimp only
  split_ifs with hcat hkey
  · exact ⟨h1, h2, h3, h4, h5, h6, h7, h8, h9, h10⟩
  · refine ⟨h1, ?_, h3, ?_, h5, ?_, h7, ?_, h9, ?_⟩
    · intro k
      dsimp only
      split_ifs with hk
      · exact add_nonneg (h2 k) hv
      · exact h2 k
    · intro e he
      rcases List.mem_append.mp he with he | he
      · exact h4 e he
      · have : e = (m.name, m.category, v, rowText) := by simpa using he
        rw [this]; exact hcat
    · intro e he
      rcases List.mem_append.mp he with he | he
      · exact List.mem_cons_of_mem _ (h6 e he)
      · have : e = (m.name, m.category, v, rowText) := by simpa using he
        rw [this]
        exact List.mem_cons_self _ _
    · rw [List.map_append]
      simp only [List.map_cons, List.map_nil]
      rw [List.nodup_append]
      refine ⟨h8, List.nodup_singleton _, ?_⟩
      intro k hk hk'
      have : k = (m.name, m.category, v) := by simpa [keyOf] using hk'
      obtain ⟨e, he, hke⟩ := List.mem_map.mp hk
      exact hkey (this ▸ hke ▸ h6 e he)
    · intro k hk
      dsimp only
      rw [if_neg (fun hkm => hk (by rw [hkm]; exact hcat))]
      exact h10 k hk
  · exact ⟨h1, h2, h3, h4, h5, h6, h7, h8, h9, h10⟩

theorem processLine_inv {ratio : String → String → ℚ} {modules : List Module}
    {categories : List String} {st : ExtractState} {ln : String}
    (hmods : ∀ m ∈ modules, m.ects = none) (h : StInv categories st) :
    StInv categories (processLine ratio modules categories st ln) := by
  unfold processLine
  split_ifs with htrash
  · exact h
  · exact foldl_inv_mem _ (StInv categories) _
      (fun _ m hm hs => by
        have : m.ects = none := hmods m (match_subset hm)
        exact lineStep_inv (by rw [this]; exact le_refl 0) hs) st h

theorem processRowCol_inv {ratio : String → String → ℚ} {modules : List Module}
    {categories : List String} {ectsX : ℚ} {st : ExtractState} {row : Row}
    (h : StInv categories st) :
    StInv categories (processRowCol ratio modules categories ectsX st row) := by
  unfold processRowCol
  dsimp only
  split_ifs with hempty
  · exact h
  · rcases hv : extract_ects_from_row row ectsX 40 with _ | v
    · exact h
    · exact foldl_inv_mem _ (StInv categories) _
        (fun s m _ hs =>
          colStep_inv (le_of_lt (extract_ects_from_row_pos hv).1) hs) st h

theorem processPage_inv {ratio : String → String → ℚ} {modules : List Module}
    {categories : List String} {st : ExtractState} {page : PageData}
    (hmods : ∀ m ∈ modules, m.ects = none) (h : StInv categories st) :
    StInv categories (processPage ratio modules categories st page) := by
  unfold processPage
  have h1 : StInv categories
      (page.lines.foldl (processLine ratio modules categories) st) :=
    foldl_inv_mem _ (StInv categories) _
      (fun s _ _ hs => processLine_inv hmods hs) st h
  rcases detect_ects_column page.rows with _ | x
  · exact h1
  · exact foldl_inv_mem _ (StInv categories) _
      (fun s _ _ hs => processRowCol_inv hs) _ h1

theorem aggregatePages_inv (ratio : String → String → ℚ) (modules : List Module)
    (categories : List String) (pages : List PageData)
    (hmods : ∀ m ∈ modules, m.ects = none) :
    StInv categories (aggregatePages ratio modules categories pages) :=
  foldl_inv_mem _ (StInv categories) _
    (fun _ _ _ hs => processPage_inv hmods hs) initState (initState_inv categories)

/-- Modules built from a mapping dict always carry `ects = None`. -/
theorem build_ects_none {mapping : List (String × String)} {m : Module}
    (h : m ∈ _build_module_list_from_mapping mapping) : m.ects = none := by
  unfold _build_module_list_from_mapping at h
  obtain ⟨p, _, hp⟩ := List.mem_map.mp h
  rw [← hp]

theorem dictSum_nonneg {cats : List String} {f : String → ℚ}
    (h : ∀ k, 0 ≤ f k) : 0 ≤ dictSum cats f := by
  unfold dictSum
  apply List.sum_nonneg
  intro x hx
  obtain ⟨k, _, hk⟩ := List.mem_map.mp hx
  exact hk ▸ h k

/-- If the normalized row text is empty, no module can be a strict hit. -/
theorem strictHitsOf_empty_norm {text : String} {mods : List Module}
    (h : normalize_text text = "") : strictHitsOf text mods = [] := by
  unfold strictHitsOf
  rw [h]
  apply List.filter_eq_nil_iff.mpr
  intro mod _
  rcases hmn : normalize_text mod.name with ⟨cs⟩
  rcases cs with _ | ⟨c, t⟩
  · simp
  · simp [pyIn]

/-- Strict hits, when any exist, fully determine the match result: the fuzzy
branch (and with it the `ratio` parameter) is irrelevant. -/
theorem match_strict_wins (ratio : String → String → ℚ) (text : String)
    (mods : List Module) (h : strictHitsOf text mods ≠ []) :
    match_modules_in_row ratio text mods true
      = _resolve_conflicts_keep_specific (strictHitsOf text mods) := by
  unfold match_modules_in_row
  dsimp only
  have hnorm : ¬ normalize_text text = "" := by
    intro hn
    exact h (strictHitsOf_empty_norm hn)
  rw [if_neg hnorm]
  have : (strictHitsOf text mods).isEmpty = false :=
    List.isEmpty_eq_false.mpr h
  rw [this]
  simp

/-! ## Concrete fixtures for the claims -/

/-- A trivial stand-in for the opaque `SequenceMatcher.ratio` parameter. -/
def ratio0 : String → String → ℚ := fun _ _ => 0

/-- A trivial stand-in for the opaque float-formatting parameter. -/
def fmt0 : ℚ → String := fun _ => ""

/-- A noise row: a single digit token, which `is_trash_line` discards and
which carries no credit-header keyword. -/
def noiseRow : Row := ⟨"7", [⟨"7", 5⟩]⟩

/-- The OCR row for the line "Mathematik I - 8 CP" of the end-to-end
scenario. -/
def mathRow : Row :=
  ⟨"Mathematik I - 8 CP",
   [⟨"Mathematik", 30⟩, ⟨"I", 60⟩, ⟨"-", 70⟩, ⟨"8", 80⟩, ⟨"CP", 100⟩]⟩

/-- A page whose only recognizable line is "Mathematik I - 8 CP": the first
20 rows are digit noise (so `detect_ects_column`, which scans only the first
20 rows, finds no credit column) and the module line is row 21. -/
def c1Page : PageData :=
  ⟨List.replicate 20 "7" ++ ["Mathematik I - 8 CP"], [],
   List.replicate 20 noiseRow ++ [mathRow]⟩

/-- A row with header tokens at x-centroids 100, 150, 400 among noise. -/
def headerRow3 : Row :=
  ⟨"Modul ECTS LP Credits",
   [⟨"Modul", 37⟩, ⟨"ECTS", 100⟩, ⟨"LP", 150⟩, ⟨"Credits", 400⟩]⟩

/-- A row with exactly two header tokens, at x-centroids 100 and 200. -/
def headerRow2 : Row :=
  ⟨"ECTS LP", [⟨"ECTS", 100⟩, ⟨"LP", 200⟩]⟩

def statModules : List Module :=
  [⟨"Statistik", "Statistik", none⟩, ⟨"Statistik I", "Statistik", none⟩]

/-- The synchronous part of `extract_ects_hybrid_async` (ocr_ects.py lines
223-250): a non-existent path short-circuits to zero sums, empty evidence and
the `"ocr_hocr"` sentinel; otherwise the engine result is passed through
unchanged. The timeout and error catch branches concern executor failures and
are outside this synchronous model. -/
def extract_ects_hybrid_async (pdfExists : Bool) (inner : ExtractResult) :
    ExtractResult :=
  if !pdfExists then (fun _ => 0, [], [], "ocr_hocr") else inner

/-! ## Claim theorems -/

/-- C1: the claim states that for mapping `{"mathematik": "Mathematik"}` and
categories `["Mathematik"]`, a document whose only recognizable line is
"Mathematik I - 8 CP" with no detectable credit column yields sums
`{"Mathematik": 8.0}` under the row-based method tag. The code disagrees: the
line strategy adds `m.ects` (always `None`, hence 0.0, for mapping-built
modules) and never parses the credit value out of the line text, so the
result is `{"Mathematik": 0.0}` with method tag `"ocr_optimized_line"`. This
theorem evaluates the embedded code at exactly that failing input. -/
theorem claim_C1_line_strategy_sums_zero :
    (extract_ects_ocr ratio0 fmt0 true (some [c1Page])
      [("mathematik", "Mathematik")] ["Mathematik"]).1 "Mathematik" = 0 ∧
    (extract_ects_ocr ratio0 fmt0 true (some [c1Page])
      [("mathematik", "Mathematik")] ["Mathematik"]).2.2.2
      = "ocr_optimized_line" ∧
    detect_ects_column c1Page.rows = none :=
  of_decide_eq_true (by with_unfolding_all rfl)

/-- C2: the claim states `score_transcript` adds 4 exactly on a strong
transcript keyword hit (e.g. "notenspiegel"). At call time the function sees
the second `TRANSCRIPT_RE` (`\b(?:transcript|ects|credits|cp)\b`, line 115),
which shadows the one built from `TRANSCRIPT_KEYWORDS` (line 23), so the
input "notenspiegel" — a strong keyword, claimed score 4 — actually scores 0,
while the intended scoring (`score_transcript_claimed`, modelled from the
keyword list the code defines but never uses) gives 4. -/
theorem claim_C2_transcript_regex_shadowed :
    score_transcript "notenspiegel" = 0 ∧
    score_transcript_claimed "notenspiegel" = 4 ∧
    score_transcript "ects" = 7 ∧
    score_transcript_claimed "ects" = 3 :=
  of_decide_eq_true (by with_unfolding_all rfl)

/-- C6: whenever a row has at least one strict (substring) match, the match
result is exactly the conflict-resolved strict hits — independent of the
fuzzy similarity function, so every fuzzy candidate is suppressed — and every
returned module is one of the strict hits; in particular, for modules
{"Statistik", "Statistik I"} both matching "Statistik I Grundlagen", only the
more specific "Statistik I" is retained. -/
theorem claim_C6_strict_suppresses_fuzzy :
    (∀ (ratio : String → String → ℚ) (text : String) (mods : List Module),
      strictHitsOf text mods ≠ [] →
      match_modules_in_row ratio text mods true
        = _resolve_conflicts_keep_specific (strictHitsOf text mods) ∧
      ∀ m ∈ match_modules_in_row ratio text mods true,
        m ∈ strictHitsOf text mods) ∧
    (∀ ratio : String → String → ℚ,
      match_modules_in_row ratio "Statistik I Grundlagen" statModules true
        = [⟨"Statistik I", "Statistik", none⟩]) := by
  constructor
  · intro ratio text mods h
    refine ⟨match_strict_wins ratio text mods h, ?_⟩
    intro m hm
    rw [match_strict_wins ratio text mods h] at hm
    exact resolve_subset hm
  · intro ratio
    rw [match_strict_wins ratio _ _ (by decide)]
    decide

/-- C6 witness: the general theorem applied at the concrete Statistik row. -/
theorem claim_C6_witness :
    match_modules_in_row ratio0 "Statistik I Grundlagen" statModules true
      = _resolve_conflicts_keep_specific
          (strictHitsOf "Statistik I Grundlagen" statModules) :=
  (claim_C6_strict_suppresses_fuzzy.1 ratio0 "Statistik I Grundlagen"
    statModules (by decide)).1

/-- C7: column detection examines only the first 20 rows (appending rows
beyond a 20-row prefix never changes the result), returns no column exactly
when no token of those rows carries a credit-header keyword, and otherwise
returns the median keyword-token centroid; concretely, header tokens at
x-centroids {100, 150, 400} give 150, and an even count {100, 200} gives the
average 150 of the two middle values. -/
theorem claim_C7_column_median :
    (∀ rows rest : List Row, 20 ≤ rows.length →
      detect_ects_column (rows ++ rest) = detect_ects_column rows) ∧
    (∀ rows : List Row,
      detect_ects_column rows = none ↔ ectsColumnCandidates (rows.take 20) = []) ∧
    detect_ects_column [headerRow3] = some 150 ∧
    detect_ects_column [headerRow2] = some 150 := by
  refine ⟨?_, ?_, ?_, ?_⟩
  · intro rows rest h
    unfold detect_ects_column
    rw [List.take_append_eq_append_take, Nat.sub_eq_zero_of_le h,
      List.take_zero, List.append_nil]
  · intro rows
    unfold detect_ects_column
    constructor
    · intro h
      by_contra hne
      rw [if_neg (by simpa using hne)] at h
      dsimp only at h
      split_ifs at h
    · intro h
      rw [if_pos (by simpa using h)]
  · exact of_decide_eq_true (by with_unfolding_all rfl)
  · exact of_decide_eq_true (by with_unfolding_all rfl)

/-- C7 witness: the prefix property applied at a concrete 20-row prefix: the
21st row's header token cannot influence the detected column. -/
theorem claim_C7_witness :
    detect_ects_column (List.replicate 20 noiseRow ++ [headerRow3])
      = detect_ects_column (List.replicate 20 noiseRow) :=
  claim_C7_column_median.1 (List.replicate 20 noiseRow) [headerRow3] (by decide)

/-- C5: degenerate inputs never raise (the embedded function is total) and
degrade to all-zero sums, empty evidence and a sentinel method tag: an empty
module mapping or a missing document yield `"ocr_skipped"`, and a failed
rasterization of a corrupt document yields `"rasterization_failed"`. -/
theorem claim_C5_degenerate_inputs (ratio : String → String → ℚ)
    (fmtNum : ℚ → String) (pdfExists : Bool) (raster : Option (List PageData))
    (mapping : List (String × String)) (categories : List String) :
    ((_build_module_list_from_mapping mapping = [] ∨ pdfExists = false) →
      extract_ects_ocr ratio fmtNum pdfExists raster mapping categories
        = (fun _ => 0, [], [], "ocr_skipped")) ∧
    (_build_module_list_from_mapping mapping ≠ [] → pdfExists = true →
      raster = none →
      extract_ects_ocr ratio fmtNum pdfExists raster mapping categories
        = (fun _ => 0, [], [], "rasterization_failed")) ∧
    (∀ inner : ExtractResult, pdfExists = false →
      extract_ects_hybrid_async pdfExists inner
        = (fun _ => 0, [], [], "ocr_hocr")) := by
  refine ⟨?_, ?_, ?_⟩
  · intro h
    unfold extract_ects_ocr
    have hc : ((_build_module_list_from_mapping mapping).isEmpty || !pdfExists)
        = true := by
      rcases h with h | h
      · simp [h]
      · simp [h]
    rw [if_pos hc]
  · intro h1 h2 h3
    unfold extract_ects_ocr
    have hc : ((_build_module_list_from_mapping mapping).isEmpty || !pdfExists)
        = false := by
      simp [h2, List.isEmpty_eq_false.mpr h1]
    rw [if_neg (by simp [hc]), h3]
  · intro inner h
    unfold extract_ects_hybrid_async
    rw [h]
    rfl

/-- C5 witness: the empty-mapping and rasterization-failure cases at concrete
inputs. -/
theorem claim_C5_witness :
    extract_ects_ocr ratio0 fmt0 true (some []) [] ["Mathematik"]
      = (fun _ => 0, [], [], "ocr_skipped") ∧
    extract_ects_ocr ratio0 fmt0 true none [("mathematik", "Mathematik")]
      ["Mathematik"]
      = (fun _ => 0, [], [], "rasterization_failed") ∧
    extract_ects_hybrid_async false (fun _ => 0, [], [], "x")
      = (fun _ => 0, [], [], "ocr_hocr") :=
  ⟨(claim_C5_degenerate_inputs ratio0 fmt0 true (some []) [] ["Mathematik"]).1
     (Or.inl rfl),
   (claim_C5_degenerate_inputs ratio0 fmt0 true none
     [("mathematik", "Mathematik")] ["Mathematik"]).2.1 (by decide) rfl rfl,
   (claim_C5_degenerate_inputs ratio0 fmt0 false none [] ["Mathematik"]).2.2
     (fun _ => 0, [], [], "x") rfl⟩

/-- C10: on every input — quick-fail, rasterization failure, or either
selection branch of a successful run — the third component of
`extract_ects_ocr`'s result (the unrecognized-evidence list of the public
interface) is the empty list. -/
theorem claim_C10_unrecognized_always_empty (ratio : String → String → ℚ)
    (fmtNum : ℚ → String) (pdfExists : Bool) (raster : Option (List PageData))
    (mapping : List (String × String)) (categories : List String) :
    (extract_ects_ocr ratio fmtNum pdfExists raster mapping categories).2.2.1
      = [] := by
  unfold extract_ects_ocr
  dsimp only
  split_ifs with h1
  · rfl
  · rcases raster with _ | pages
    · rfl
    · dsimp only
      split_ifs <;> rfl

/-- C9: run invariants of `extract_ects_ocr`'s aggregation, for every page
sequence (hence throughout the run): both per-category accumulators stay
non-negative; a match enters the evidence only when its category is
requested, and a sum is only ever accumulated at requested categories
(outside them it stays 0); and within each strategy the (name, category,
value) keys of the recorded matches are pairwise distinct. -/
theorem claim_C9_aggregation_invariants (ratio : String → String → ℚ)
    (mapping : List (String × String)) (categories : List String)
    (pages : List PageData) :
    let st := aggregatePages ratio (_build_module_list_from_mapping mapping)
      categories pages
    (∀ k, 0 ≤ st.sums_line k) ∧
    (∀ k, 0 ≤ st.sums_col k) ∧
    (∀ e ∈ st.line_matches, e.2.1 ∈ categories) ∧
    (∀ e ∈ st.col_matches, e.2.1 ∈ categories) ∧
    (∀ k, k ∉ categories → st.sums_line k = 0) ∧
    (∀ k, k ∉ categories → st.sums_col k = 0) ∧
    (st.line_matches.map keyOf).Nodup ∧
    (st.col_matches.map keyOf).Nodup := by
  have h := aggregatePages_inv ratio (_build_module_list_from_mapping mapping)
    categories pages (fun _ hm => build_ects_none hm)
  exact ⟨h.1, h.2.1, h.2.2.1, h.2.2.2.1, h.2.2.2.2.2.2.2.2.1,
    h.2.2.2.2.2.2.2.2.2, h.2.2.2.2.2.2.1, h.2.2.2.2.2.2.2.1⟩

/-- C9 witness: the invariants applied to the concrete end-to-end page: the
sum at an unrequested category is 0, and the recorded match's category is in
the requested set. -/
theorem claim_C9_witness :
    (aggregatePages ratio0
      (_build_module_list_from_mapping [("mathematik", "Mathematik")])
      ["Mathematik"] [c1Page]).sums_line "X" = 0 ∧
    ("mathematik", "Mathematik", (0 : ℚ), "Mathematik I - 8 CP").2.1
      ∈ ["Mathematik"] := by
  have h := claim_C9_aggregation_invariants ratio0
    [("mathematik", "Mathematik")] ["Mathematik"] [c1Page]
  exact ⟨h.2.2.2.2.1 "X" (by decide),
    h.2.2.1 ("mathematik", "Mathematik", (0 : ℚ), "Mathematik I - 8 CP")
      (of_decide_eq_true (by with_unfolding_all rfl))⟩

/-- C4: after aggregating all pages (in the non-degenerate path), the column
strategy wins exactly when its per-category total is nonzero — equivalent to
the code's `total_col > 0` test because the total is provably non-negative —
returning the column sums, column evidence and the column method tag;
otherwise the line sums, line evidence and line method tag are returned. In
both cases each returned per-category sum is the 2-decimal rounding of the
accumulated sum. -/
theorem claim_C4_column_preferred_when_nonzero (ratio : String → String → ℚ)
    (fmtNum : ℚ → String) (mapping : List (String × String))
    (categories : List String) (pages : List PageData)
    (hmods : _build_module_list_from_mapping mapping ≠ []) :
    let st := aggregatePages ratio (_build_module_list_from_mapping mapping)
      categories pages
    (dictSum categories st.sums_col ≠ 0 →
      extract_ects_ocr ratio fmtNum true (some pages) mapping categories
        = (fun k => round2 (st.sums_col k),
           st.col_matches.map (formatMatch fmtNum), [],
           "ocr_optimized_column")) ∧
    (dictSum categories st.sums_col = 0 →
      extract_ects_ocr ratio fmtNum true (some pages) mapping categories
        = (fun k => round2 (st.sums_line k),
           st.line_matches.map (formatMatch fmtNum), [],
           "ocr_optimized_line")) := by
  intro st
  have hinv := aggregatePages_inv ratio (_build_module_list_from_mapping mapping)
    categories pages (fun _ hm => build_ects_none hm)
  have hnn : 0 ≤ dictSum categories st.sums_col := dictSum_nonneg hinv.2.1
  have hunfold : extract_ects_ocr ratio fmtNum true (some pages) mapping categories
      = if 0 < dictSum categories st.sums_col then
          (fun k => round2 (st.sums_col k),
           st.col_matches.map (formatMatch fmtNum), [], "ocr_optimized_column")
        else
          (fun k => round2 (st.sums_line k),
           st.line_matches.map (formatMatch fmtNum), [], "ocr_optimized_line") := by
    unfold extract_ects_ocr
    rw [if_neg (by simp [List.isEmpty_eq_false.mpr hmods])]
  constructor
  · intro hne
    rw [hunfold, if_pos (lt_of_le_of_ne hnn (Ne.symm hne))]
  · intro heq
    rw [hunfold, if_neg (by rw [heq]; exact lt_irrefl 0)]

/-- C4 witness: with no pages, the column total is zero and the line branch
is returned. -/
theorem claim_C4_witness :
    extract_ects_ocr ratio0 fmt0 true (some []) [("a", "A")] ["A"]
      = (fun k => round2 ((aggregatePages ratio0
            (_build_module_list_from_mapping [("a", "A")]) ["A"] []).sums_line k),
         (aggregatePages ratio0 (_build_module_list_from_mapping [("a", "A")])
            ["A"] []).line_matches.map (formatMatch fmt0), [],
         "ocr_optimized_line") :=
  (claim_C4_column_preferred_when_nonzero ratio0 fmt0 [("a", "A")] ["A"] []
    (by decide)).2 (of_decide_eq_true (by with_unfolding_all rfl))

/-- C3 counterexample: the claim says every foreign grade at most 5
scale-units outside [min(best, pass), max(best, pass)] converts to the
clamped linear value (not None). For Germany (descending, best 1, pass 4) the
grade 0 is inside that extended range and the claim would give
clamp(1 + 3·(0−1)/3) = 1.0, but the code rejects the raw value 0 for lying
below 1 − 1e−6 and returns None. -/
theorem claim_C3_counterexample :
    get_country_scale "germany" = some ⟨"descending", 1, 4⟩ ∧
    min (1 : ℚ) 4 - 5 ≤ 0 ∧ (0 : ℚ) ≤ max (1 : ℚ) 4 + 5 ∧
    rawGerman ⟨"descending", 1, 4⟩ 0 = 0 ∧
    max (1 : ℚ) (min 4 (rawGerman ⟨"descending", 1, 4⟩ 0)) = 1 ∧
    convert_to_german "germany" 0 = none :=
  of_decide_eq_true (by with_unfolding_all rfl)

/-- C3 amended: `convert_to_german` returns None for an unknown country, for
a foreign grade more than 5 scale-units outside [min(best, pass),
max(best, pass)], for a near-zero denominator, and ALSO whenever the raw
linear value lies outside [1 − 1e−6, 4 + 1e−6]; only otherwise does it return
the linear value clamped to [1.0, 4.0] (the clamp absorbs just the 1e−6
slack) and rounded to 2 decimals. Non-finite results cannot arise in the
rational model. -/
theorem claim_C3_amended_conversion (country : String) (g : ℚ) :
    (get_country_scale country = none → convert_to_german country g = none) ∧
    (∀ scale, get_country_scale country = some scale →
      ((g < min scale.best_grade scale.pass_grade - 5 ∨
        max scale.best_grade scale.pass_grade + 5 < g) →
        convert_to_german country g = none) ∧
      (min scale.best_grade scale.pass_grade - 5 ≤ g →
        g ≤ max scale.best_grade scale.pass_grade + 5 →
        (|denomOf scale| < 1 / 1000000 → convert_to_german country g = none) ∧
        (1 / 1000000 ≤ |denomOf scale| →
          ((rawGerman scale g < 1 - 1 / 1000000 ∨
            4 + 1 / 1000000 < rawGerman scale g) →
            convert_to_german country g = none) ∧
          (1 - 1 / 1000000 ≤ rawGerman scale g →
            rawGerman scale g ≤ 4 + 1 / 1000000 →
            convert_to_german country g
              = some (round2 (max 1 (min 4 (rawGerman scale g)))))))) := by
  constructor
  · intro h
    unfold convert_to_german
    rw [h]
  · intro scale hs
    refine ⟨?_, ?_⟩
    · intro hout
      unfold convert_to_german
      rw [hs]
      dsimp only
      rw [if_pos (by rcases hout with h | h
                     · exact Or.inl h
                     · exact Or.inr h)]
    · intro hlow hhigh
      constructor
      · intro hden
        unfold convert_to_german
        rw [hs]
        dsimp only
        rw [if_neg (by push_neg; exact ⟨hlow, hhigh⟩), if_pos hden]
      · intro hden
        constructor
        · intro hraw
          unfold convert_to_german
          rw [hs]
          dsimp only
          rw [if_neg (by push_neg; exact ⟨hlow, hhigh⟩),
            if_neg (not_lt.mpr hden), if_pos hraw]
        · intro hr1 hr4
          unfold convert_to_german
          rw [hs]
          dsimp only
          rw [if_neg (by push_neg; exact ⟨hlow, hhigh⟩),
            if_neg (not_lt.mpr hden),
            if_neg (by push_neg; exact ⟨hr1, hr4⟩)]

/-- C3 witness: the amended characterization applied to Germany at foreign
grade 2.5, whose raw linear value 2.5 lies inside the accepted band, so the
conversion returns 2.5. -/
theorem claim_C3_witness : convert_to_german "germany" (5 / 2) = some (5 / 2) := by
  have h := ((claim_C3_amended_conversion "germany" (5 / 2)).2
      ⟨"descending", 1, 4⟩ (of_decide_eq_true (by with_unfolding_all rfl))).2
      (of_decide_eq_true (by with_unfolding_all rfl))
      (of_decide_eq_true (by with_unfolding_all rfl))
  have h2 := (h.2 (of_decide_eq_true (by with_unfolding_all rfl))).2
      (of_decide_eq_true (by with_unfolding_all rfl))
      (of_decide_eq_true (by with_unfolding_all rfl))
  rw [h2]
  have h3 : round2 (max 1 (min 4 (rawGerman ⟨"descending", 1, 4⟩ (5 / 2))))
      = 5 / 2 := of_decide_eq_true (by with_unfolding_all rfl)
  rw [h3]

/-- C8: `verify_grade` returns (None, None, "NoClaimedGrade") exactly when no
grade is claimed; (None, None, "NoScaleOrInvalidForeign") whenever the
conversion fails (unknown country or out-of-range foreign grade); and
otherwise (True, converted, "OK") precisely when |converted − claimed| ≤
tolerance (the callers' default is 0.2), else (False, converted,
"BavarianMismatch") — the named mismatch tag. The converted value returned is
the conversion result itself: the second clamp in the code is the identity
because every successful conversion already lies in [1, 4]
(`convert_range`). -/
theorem claim_C8_verify_grade_cases (country : String) (g tol : ℚ)
    (claimed : Option ℚ) :
    (claimed = none →
      verify_grade country g claimed tol = (none, none, "NoClaimedGrade")) ∧
    (∀ c, claimed = some c →
      (convert_to_german country g = none →
        verify_grade country g claimed tol
          = (none, none, "NoScaleOrInvalidForeign")) ∧
      (∀ v, convert_to_german country g = some v →
        (|v - c| ≤ tol →
          verify_grade country g claimed tol = (some true, some v, "OK")) ∧
        (tol < |v - c| →
          verify_grade country g claimed tol
            = (some false, some v, "BavarianMismatch")))) := by
  constructor
  · intro h
    unfold verify_grade
    rw [h]
  · intro c hc
    constructor
    · intro hconv
      unfold verify_grade
      rw [hc, hconv]
    · intro v hv
      have hr := convert_range hv
      have hclamp : max 1 (min 4 v) = v := by
        rw [min_eq_right hr.2, max_eq_right hr.1]
      constructor
      · intro htol
        unfold verify_grade
        rw [hc, hv]
        dsimp only
        rw [hclamp, if_pos htol]
      · intro htol
        unfold verify_grade
        rw [hc, hv]
        dsimp only
        rw [hclamp, if_neg (not_le.mpr htol)]

/-- C8 witness: Germany, foreign grade 2 (already German-scaled), claimed
2.1, tolerance 0.2: consistent, tag "OK". -/
theorem claim_C8_witness :
    verify_grade "germany" 2 (some (21 / 10)) (1 / 5)
      = (some true, some 2, "OK") :=
  (((claim_C8_verify_grade_cases "germany" 2 (1 / 5) (some (21 / 10))).2
      (21 / 10) rfl).2 2
    (of_decide_eq_true (by with_unfolding_all rfl))).1
    (of_decide_eq_true (by with_unfolding_all rfl))

end RPA
